import Mathlib

/-!
Shallow embedding of the cpptree core (src/cpptree/models.py and
src/cpptree/core/tostring.py): the validated preprocessor-directive tree,
its construction-time validators, and the text-regeneration consumer.

Python strings are modelled as Lean `String`; the character-level helpers
work on the underlying `List Char`.  Python's `str.strip`/`str.lstrip`
(no argument) remove ASCII whitespace, modelled by `isPySpace`.
Validator failures (Python `raise ValueError`) are modelled as
`Except VErr`, with one `VErr` constructor per distinct error site.
-/

namespace Cpptree

/-- Characters removed by Python `str.strip()` / `str.lstrip()` (ASCII). -/
def isPySpace (c : Char) : Bool :=
  c = ' ' || c = '\t' || c = '\n' || c = '\r' || c = '\x0b' || c = '\x0c'

/-- First character class of the regexes `_C_IDENT_PREFIX` / `_C_IDENT`:
`[A-Za-z_]`. -/
def isIdentStart (c : Char) : Bool :=
  ('A' ≤ c && c ≤ 'Z') || ('a' ≤ c && c ≤ 'z') || c = '_'

/-- Continuation class of the regexes: `[A-Za-z0-9_]`. -/
def isIdentCont (c : Char) : Bool :=
  isIdentStart c || ('0' ≤ c && c ≤ '9')

/-- Python `s.lstrip()` on the character list. -/
def pyLStripL (s : List Char) : List Char := s.dropWhile isPySpace

/-- Python `s.strip()` on the character list. -/
def pyStripL (s : List Char) : List Char :=
  ((pyLStripL s).reverse.dropWhile isPySpace).reverse

/-- Python `s.lstrip()`. -/
def pyLStrip (s : String) : String := ⟨pyLStripL s.data⟩

/-- Python `s.strip()`. -/
def pyStrip (s : String) : String := ⟨pyStripL s.data⟩

/-- Longest leading run matching `[A-Za-z_][A-Za-z0-9_]*`, empty if none:
models `_C_IDENT_PREFIX.match(s)` with `m.group(0) if m else ""`. -/
def identPrefixL : List Char → List Char
  | [] => []
  | c :: cs => if isIdentStart c then c :: cs.takeWhile isIdentCont else []

/-- Whole-string match of `_C_IDENT` (`^[A-Za-z_][A-Za-z0-9_]*$`). -/
def isCIdentL : List Char → Bool
  | [] => false
  | c :: cs => isIdentStart c && cs.all isIdentCont

/-- The `kind` values of `DirectiveNode`. -/
inductive DirKind where
  | includeKw
  | defineKw
  | undefKw
  | pragmaKw
  | errorKw
  deriving DecidableEq

/-- The literal string behind a `DirectiveNode.kind`. -/
def DirKind.name : DirKind → String
  | .includeKw => "include"
  | .defineKw => "define"
  | .undefKw => "undef"
  | .pragmaKw => "pragma"
  | .errorKw => "error"

/-- The `kind` values of `ConditionalBranch`. -/
inductive CondKind where
  | ifKw
  | ifdefKw
  | ifndefKw
  | elifKw
  deriving DecidableEq

/-- The literal string behind a `ConditionalBranch.kind`. -/
def CondKind.name : CondKind → String
  | .ifKw => "if"
  | .ifdefKw => "ifdef"
  | .ifndefKw => "ifndef"
  | .elifKw => "elif"

/-- One constructor per distinct `raise ValueError` site in models.py. -/
inductive VErr where
  | missingHash (raw : String)
  | kwMismatch (expected kw raw : String)
  | rawEmpty (who : String)
  | emptyCondition (loc : String)
  | invalidIdentifier (loc : String) (cond : String)
  | entryKind (k : CondKind)
  | heterogeneousElif (i : Nat) (k : CondKind)
  | illegalNestedDirective (raw : String)
  | emptyPath
  | nullItem (i : Nat)
  deriving DecidableEq

/- The `Node` union `TextBlock | DirectiveNode | ConditionalGroup`, with
`ConditionalBranch` occurring only inside a `ConditionalGroup`. -/
mutual

inductive Node where
  | text (content : String) : Node
  | directive (kind : DirKind) (raw : String) : Node
  | group (g : CondGroup) : Node

inductive CondBranch where
  | mk (kind : CondKind) (condition : String) (body : List Node)
      (raw : String) : CondBranch

inductive CondGroup where
  | mk (entry : CondBranch) (elifs : Option (List CondBranch))
      (elseBody : Option (List Node)) (elseRaw : Option String)
      (endifRaw : String) : CondGroup

end

def CondBranch.kind : CondBranch → CondKind
  | .mk k _ _ _ => k

def CondBranch.condition : CondBranch → String
  | .mk _ c _ _ => c

def CondBranch.body : CondBranch → List Node
  | .mk _ _ b _ => b

def CondBranch.raw : CondBranch → String
  | .mk _ _ _ r => r

def CondGroup.entry : CondGroup → CondBranch
  | .mk e _ _ _ _ => e

def CondGroup.elifs : CondGroup → Option (List CondBranch)
  | .mk _ es _ _ _ => es

def CondGroup.elseBody : CondGroup → Option (List Node)
  | .mk _ _ eb _ _ => eb

def CondGroup.elseRaw : CondGroup → Option String
  | .mk _ _ _ er _ => er

def CondGroup.endifRaw : CondGroup → String
  | .mk _ _ _ _ en => en

/-- Models `_strip_hash_prefix(raw)[1:].lstrip()`: lstrip `raw`, require the
leading `#` (else the `ValueError` of `_strip_hash_prefix`), drop it and
lstrip again. -/
def afterHash (raw : String) : Except VErr (List Char) :=
  match pyLStripL raw.data with
  | '#' :: rest => .ok (pyLStripL rest)
  | _ => .error (.missingHash raw)

/-- Models `_expect_directive(raw, expected)`: the extracted keyword (longest
leading identifier run after the `#`) must equal `expected`. -/
def expectDirective (raw : String) (expected : String) : Except VErr Unit :=
  match afterHash raw with
  | .error e => .error e
  | .ok s =>
    if (⟨identPrefixL s⟩ : String) = expected then .ok ()
    else .error (.kwMismatch expected ⟨identPrefixL s⟩ raw)

/-- Models `_require_nonempty_condition(cond, where=loc)`. -/
def requireNonemptyCondition (cond : String) (loc : String) :
    Except VErr Unit :=
  if pyStrip cond = "" then .error (.emptyCondition loc) else .ok ()

/-- Models `_require_identifier(cond, where=loc)`: non-empty after strip, then
a whole-string `_C_IDENT` match of the stripped condition. -/
def requireIdentifier (cond : String) (loc : String) : Except VErr Unit :=
  match requireNonemptyCondition cond loc with
  | .error e => .error e
  | .ok _ =>
    if isCIdentL (pyStripL cond.data) then .ok ()
    else .error (.invalidIdentifier loc cond)

/-- Models `DirectiveNode._validate_directive` on the field values: raw
non-empty after strip, then `_expect_directive(raw, kind)`. -/
def validateDirective (kind : DirKind) (raw : String) : Except VErr Unit :=
  if pyStrip raw = "" then .error (.rawEmpty "DirectiveNode.raw")
  else expectDirective raw kind.name

/-- The `where=` string built by `ConditionalBranch._validate_branch`. -/
def condWhere (k : CondKind) : String :=
  "ConditionalBranch(kind=" ++ k.name ++ ")"

/-- Models `ConditionalBranch._validate_branch` on the field values: raw
non-empty after strip, keyword must match `kind`, then the condition rule
chosen by `kind` (`body` is a `List` here, so the `body is None` check of the
Python code cannot fire). -/
def validateBranch (b : CondBranch) : Except VErr Unit :=
  if pyStrip b.raw = "" then .error (.rawEmpty "ConditionalBranch.raw")
  else
    match expectDirective b.raw b.kind.name with
    | .error e => .error e
    | .ok _ =>
      match b.kind with
      | .ifKw => requireNonemptyCondition b.condition (condWhere .ifKw)
      | .elifKw => requireNonemptyCondition b.condition (condWhere .elifKw)
      | .ifdefKw => requireIdentifier b.condition (condWhere .ifdefKw)
      | .ifndefKw => requireIdentifier b.condition (condWhere .ifndefKw)

/-- The forbidden keywords of `_validate_group._walk`. -/
def forbiddenKw : List String :=
  ["if", "ifdef", "ifndef", "elif", "else", "endif"]

/-- The keyword extraction inside `_walk`:
`s = _strip_hash_prefix(n.raw)[1:].lstrip(); kw = s.split(None, 1)[0] if s
else ""` — the first whitespace-delimited token, not the identifier run. -/
def walkKw (raw : String) : Except VErr String :=
  match afterHash raw with
  | .error e => .error e
  | .ok s =>
    if s.isEmpty then .ok ""
    else .ok ⟨s.takeWhile (fun c => !(isPySpace c))⟩

/-- One iteration of `_walk`'s loop body on a single direct child. -/
def checkChild : Node → Except VErr Unit
  | .directive _ raw =>
    (match walkKw raw with
     | .error e => .error e
     | .ok kw =>
       if kw ∈ forbiddenKw then .error (.illegalNestedDirective raw)
       else .ok ())
  | .group _ => .ok ()
  | .text _ => .ok ()

/-- Models `_walk(nodes)`: check every direct child, first failure wins (the
`Unknown node type` branch is unreachable over the closed `Node` variant). -/
def walk : List Node → Except VErr Unit
  | [] => .ok ()
  | n :: ns =>
    match checkChild n with
    | .error e => .error e
    | .ok _ => walk ns

/-- Step 2 of `_validate_group`: every element of `elifs` has kind `elif`,
reported with its index. -/
def checkElifs : Nat → List CondBranch → Except VErr Unit
  | _, [] => .ok ()
  | i, b :: bs =>
    if b.kind = .elifKw then checkElifs (i + 1) bs
    else .error (.heterogeneousElif i b.kind)

/-- The loop `for b in self.elifs: _walk(b.body)`. -/
def walkElifBodies : List CondBranch → Except VErr Unit
  | [] => .ok ()
  | b :: bs =>
    match walk b.body with
    | .error e => .error e
    | .ok _ => walkElifBodies bs

/-- Models `ConditionalGroup._validate_group`: entry kind, elif homogeneity,
then the one-level walk of `entry.body`, each elif body, and `else_body`
(the Python `isinstance(else_body, list)` check is a tautology here, and
iterating an empty `elifs` list walks nothing, matching the truthiness
guard `if self.elifs:`).  `else_raw` and `endif_raw` are never read. -/
def validateGroup (g : CondGroup) : Except VErr Unit :=
  if g.entry.kind = .ifKw ∨ g.entry.kind = .ifdefKw ∨ g.entry.kind = .ifndefKw
  then
    match (match g.elifs with
           | some l => checkElifs 0 l
           | none => .ok ()) with
    | .error e => .error e
    | .ok _ =>
      match walk g.entry.body with
      | .error e => .error e
      | .ok _ =>
        match (match g.elifs with
               | some l => walkElifBodies l
               | none => .ok ()) with
        | .error e => .error e
        | .ok _ =>
          match g.elseBody with
          | some l => walk l
          | none => .ok ()
  else .error (.entryKind g.entry.kind)

/-- The loop of `FileRoot._validate_root` over `items`, reporting the index
of the first `None` element. -/
def checkItems : Nat → List (Option Node) → Except VErr Unit
  | _, [] => .ok ()
  | i, none :: _ => .error (.nullItem i)
  | i, some _ :: rest => checkItems (i + 1) rest

/-- Models `FileRoot._validate_root` on the field values: path non-empty
after strip, then no element of `items` is `None` (a `None` element is
modelled as `Option.none`; the `items is None` check cannot fire on a
`List`). -/
def validateRoot (path : String) (items : List (Option Node)) :
    Except VErr Unit :=
  if pyStrip path = "" then .error .emptyPath
  else checkItems 0 items

/-- A validated file: path plus ordered top-level nodes. -/
structure FileRoot where
  path : String
  items : List Node

/- Modelled from the spec: the reference `tostring` bodies in
src/cpptree/core/tostring.py are unimplemented stubs, so the
text-regenerator is modelled from the interface contract of spec §6:
"must reproduce source text as a pure function of the tree's
`content`/`raw` fields by concatenation in tree order". -/
mutual

/-- Modelled from the spec: text of one node — `content` for a text block,
`raw` for a directive, and the in-order concatenation for a group. -/
def nodeToString : Node → String
  | .text content => content
  | .directive _ raw => raw
  | .group g => groupToString g

/-- Modelled from the spec: concatenation of a node sequence in order. -/
def nodesToString : List Node → String
  | [] => ""
  | n :: ns => nodeToString n ++ nodesToString ns

/-- Modelled from the spec: a branch renders its `raw` line then its body. -/
def branchToString : CondBranch → String
  | .mk _ _ body raw => raw ++ nodesToString body

/-- Modelled from the spec: concatenation of a branch sequence in order. -/
def branchesToString : List CondBranch → String
  | [] => ""
  | b :: bs => branchToString b ++ branchesToString bs

/-- Modelled from the spec: an optional node sequence, empty when absent. -/
def optNodesToString : Option (List Node) → String
  | some l => nodesToString l
  | none => ""

/-- Modelled from the spec: an optional branch sequence, empty when absent. -/
def optBranchesToString : Option (List CondBranch) → String
  | some l => branchesToString l
  | none => ""

/-- Modelled from the spec: a group renders entry, elif branches, the
optional `else` line and body, then the closing `endif_raw`. -/
def groupToString : CondGroup → String
  | .mk entry elifs elseBody elseRaw endifRaw =>
    branchToString entry ++ optBranchesToString elifs ++
      (match elseRaw with | some r => r | none => "") ++
      optNodesToString elseBody ++ endifRaw

end

/-- Modelled from the spec: regenerating text from a `FileRoot` is the
concatenation over its `items`. -/
def tostringFile (r : FileRoot) : String := nodesToString r.items

/-- True for the flat node shapes (`TextBlock` / `DirectiveNode`). -/
def isFlat : Node → Bool
  | .text _ => true
  | .directive _ _ => true
  | .group _ => false

/-- The claim's right-hand side for a flat node: `content` for a text
block, `raw` for a directive (groups excluded by the flatness premise). -/
def flatPiece : Node → String
  | .text content => content
  | .directive _ raw => raw
  | .group _ => ""

/-- Keyword extraction of `_expect_directive` (section 4.2) as a total
function: `none` when the raw text has no leading `#`. -/
def kwByExpect (raw : String) : Option String :=
  match afterHash raw with
  | .ok s => some ⟨identPrefixL s⟩
  | .error _ => none

/-- Keyword extraction of `_validate_group._walk` as a total function:
`none` when the raw text has no leading `#`. -/
def kwByWalk (raw : String) : Option String :=
  match walkKw raw with
  | .ok kw => some kw
  | .error _ => none

/-! Helper lemmas about the character-level extraction functions. -/

theorem takeWhile_append_of_all {p : Char → Bool} {l₁ l₂ : List Char}
    (h : ∀ c ∈ l₁, p c = true) :
    (l₁ ++ l₂).takeWhile p = l₁ ++ l₂.takeWhile p := by
  induction l₁ with
  | nil => simp
  | cons c cs ih =>
    have hc : p c = true := h c (List.mem_cons_self c cs)
    simp [List.takeWhile_cons, hc,
      ih fun x hx => h x (List.mem_cons_of_mem c hx)]

theorem pyspace_not_identCont {c : Char} (h : isPySpace c = true) :
    isIdentCont c = false := by
  simp only [isPySpace, Bool.or_eq_true, decide_eq_true_eq] at h
  rcases h with ((((h | h) | h) | h) | h) | h <;> subst h <;> decide

theorem dropWhile_head_false {p : Char → Bool} {l : List Char} {c : Char}
    {cs : List Char} (h : l.dropWhile p = c :: cs) : p c = false := by
  have h2 := List.head?_dropWhile_not p l
  rw [h] at h2
  simpa using h2

/-- When the first whitespace-delimited token of `s` is wholly made of
identifier characters, the identifier-run extraction returns exactly it. -/
theorem identPrefix_eq_token {s : List Char}
    (h : isCIdentL (s.takeWhile (fun c => !(isPySpace c))) = true) :
    identPrefixL s = s.takeWhile (fun c => !(isPySpace c)) := by
  cases htk : s.takeWhile (fun c => !(isPySpace c)) with
  | nil => rw [htk] at h; cases h
  | cons c cs =>
    rw [htk] at h
    simp only [isCIdentL, Bool.and_eq_true, List.all_eq_true] at h
    obtain ⟨hc, hcs⟩ := h
    have hs : s = c :: (cs ++ s.dropWhile (fun c => !(isPySpace c))) := by
      conv_lhs =>
        rw [← List.takeWhile_append_dropWhile (fun c => !(isPySpace c)) s,
          htk]
      rw [List.cons_append]
    rw [hs]
    simp only [identPrefixL, hc, if_true]
    congr 1
    rw [takeWhile_append_of_all hcs]
    cases hr : s.dropWhile (fun c => !(isPySpace c)) with
    | nil => simp
    | cons d ds =>
      have hd : isPySpace d = true := by
        have := dropWhile_head_false hr
        simpa using this
      simp [List.takeWhile_cons, pyspace_not_identCont hd]

/-- The text `afterHash` returns carries no leading whitespace. -/
theorem afterHash_ok_lstripped {raw : String} {s : List Char}
    (h : afterHash raw = .ok s) : s.dropWhile isPySpace = s := by
  unfold afterHash at h
  split at h
  · cases h
    exact List.dropWhile_idempotent isPySpace _
  · cases h

/-! Helper lemmas about the validators. -/

theorem pyStrip_eq_empty_iff (s : String) :
    pyStrip s = "" ↔ pyStripL s.data = [] := by
  unfold pyStrip
  constructor
  · intro h
    have := congrArg String.data h
    simpa using this
  · intro h
    rw [h]

theorem requireNonempty_ok_iff (cond loc : String) :
    requireNonemptyCondition cond loc = .ok () ↔ pyStrip cond ≠ "" := by
  unfold requireNonemptyCondition
  split <;> simp_all

theorem requireIdentifier_ok_iff (cond loc : String) :
    requireIdentifier cond loc = .ok () ↔
      isCIdentL (pyStripL cond.data) = true := by
  unfold requireIdentifier
  split
  · rename_i e heq
    have hempty : pyStrip cond = "" := by
      unfold requireNonemptyCondition at heq
      split at heq
      · assumption
      · cases heq
    rw [(pyStrip_eq_empty_iff cond).mp hempty]
    simp [isCIdentL]
  · split <;> simp_all

theorem expectDirective_ok_iff (raw expected : String) :
    expectDirective raw expected = .ok () ↔
      ∃ s, afterHash raw = .ok s ∧ (⟨identPrefixL s⟩ : String) = expected := by
  unfold expectDirective
  split
  · rename_i e heq
    simp [heq]
  · rename_i s heq
    split <;> rename_i hkw <;> simp_all

theorem walkKw_of_afterHash {raw : String} {s : List Char}
    (h : afterHash raw = .ok s) :
    walkKw raw = .ok ⟨s.takeWhile (fun c => !(isPySpace c))⟩ := by
  unfold walkKw
  rw [h]
  split <;> rename_i hs
  · cases hs
  · cases hs
    split <;> rename_i h2
    · rw [List.isEmpty_iff.mp h2]
      rfl
    · rfl

/-! Helper lemmas about the recursive legality walk. -/

theorem checkChild_ok_of_walk_ok {ns : List Node} {n : Node}
    (h : walk ns = .ok ()) (hn : n ∈ ns) : checkChild n = .ok () := by
  induction ns with
  | nil => cases hn
  | cons m ms ih =>
    unfold walk at h
    split at h
    · cases h
    · rename_i u heq
      cases hn with
      | head => cases u; exact heq
      | tail _ hn => exact ih h hn

theorem walkElif_ok_of_mem {l : List CondBranch} {b : CondBranch}
    (h : walkElifBodies l = .ok ()) (hb : b ∈ l) : walk b.body = .ok () := by
  induction l with
  | nil => cases hb
  | cons m ms ih =>
    unfold walkElifBodies at h
    split at h
    · cases h
    · rename_i u heq
      cases hb with
      | head => cases u; exact heq
      | tail _ hb => exact ih h hb

theorem checkChild_forbidden {k : DirKind} {raw kw : String}
    (hkw : walkKw raw = .ok kw) (hf : kw ∈ forbiddenKw) :
    checkChild (.directive k raw) = .error (.illegalNestedDirective raw) := by
  simp only [checkChild]
  rw [hkw]
  simp [hf]

theorem validateGroup_ok_parts {g : CondGroup}
    (h : validateGroup g = .ok ()) :
    walk g.entry.body = .ok () ∧
      (∀ l, g.elifs = some l → walkElifBodies l = .ok ()) ∧
      (∀ l, g.elseBody = some l → walk l = .ok ()) := by
  unfold validateGroup at h
  split at h
  · split at h
    · cases h
    · rename_i u1 heq1
      split at h
      · cases h
      · rename_i u2 heq2
        split at h
        · cases h
        · rename_i u3 heq3
          refine ⟨by cases u2; exact heq2, ?_, ?_⟩
          · intro l hl
            rw [hl] at heq3
            cases u3
            exact heq3
          · intro l hl
            rw [hl] at h
            exact h
  · cases h

/-- No `DirectiveNode.kind` name is on the forbidden-keyword list. -/
theorem dirName_not_forbidden (k : DirKind) : k.name ∉ forbiddenKw := by
  cases k <;> decide

/-- A `DirectiveNode` passing its own validation never trips the walk: its
identifier keyword equals its kind's name, which forces the walk's
whitespace-token keyword off the forbidden list. -/
theorem checkChild_ok_of_valid {k : DirKind} {raw : String}
    (h : validateDirective k raw = .ok ()) :
    checkChild (.directive k raw) = .ok () := by
  unfold validateDirective at h
  split at h
  · cases h
  · rw [expectDirective_ok_iff] at h
    obtain ⟨s, hs, hkw⟩ := h
    simp only [checkChild]
    rw [walkKw_of_afterHash hs]
    by_cases hf :
        (⟨s.takeWhile (fun c => !(isPySpace c))⟩ : String) ∈ forbiddenKw
    · exfalso
      have hforb : ∀ w ∈ forbiddenKw, isCIdentL w.data = true := by decide
      have hident : isCIdentL (s.takeWhile (fun c => !(isPySpace c))) =
          true := hforb _ hf
      rw [identPrefix_eq_token hident] at hkw
      exact dirName_not_forbidden k (hkw ▸ hf)
    · simp [hf]

theorem walk_ok_of_valid {ns : List Node}
    (h : ∀ k raw, Node.directive k raw ∈ ns →
      validateDirective k raw = .ok ()) :
    walk ns = .ok () := by
  induction ns with
  | nil => rfl
  | cons n ms ih =>
    have htail : walk ms = .ok () :=
      ih fun k raw hm => h k raw (List.mem_cons_of_mem _ hm)
    have hc : checkChild n = .ok () := by
      cases n with
      | text c => rfl
      | group g => rfl
      | directive k raw =>
        exact checkChild_ok_of_valid (h k raw (List.mem_cons_self _ _))
    unfold walk
    rw [hc]
    exact htail

/-- All-`some` items pass `checkItems` at every starting index. -/
theorem checkItems_ok {items : List (Option Node)}
    (h : ∀ x ∈ items, x ≠ none) : ∀ i, checkItems i items = .ok () := by
  induction items with
  | nil => intro i; rfl
  | cons x xs ih =>
    intro i
    cases x with
    | none => exact absurd rfl (h none (List.mem_cons_self _ _))
    | some n =>
      unfold checkItems
      exact ih (fun y hy => h y (List.mem_cons_of_mem _ hy)) (i + 1)

/-- Items containing a `None` element fail `checkItems` with the null-item
error, at every starting index. -/
theorem checkItems_err {items : List (Option Node)} (h : none ∈ items) :
    ∀ i, ∃ j, checkItems i items = .error (.nullItem j) := by
  induction items with
  | nil => cases h
  | cons x xs ih =>
    intro i
    cases x with
    | none => exact ⟨i, rfl⟩
    | some n =>
      cases h with
      | tail _ h2 =>
        obtain ⟨j, hj⟩ := ih h2 (i + 1)
        refine ⟨j, ?_⟩
        unfold checkItems
        exact hj

/-! The claims. -/

/-- C1: a `ConditionalGroup` whose `entry.body` contains
`DirectiveNode(raw="#else")` fails with the illegal-nested-directive error;
in general, for every body slot (`entry.body`, any `elifs[i].body`,
`else_body`), a direct `DirectiveNode` child whose raw's extracted keyword
is one of `{if, ifdef, ifndef, elif, else, endif}` makes `ConditionalGroup`
construction fail, regardless of the node's own declared `kind`. -/
theorem claim1_nested_conditional_directive_fails :
    validateGroup (.mk (.mk .ifKw "X" [.directive .includeKw "#else"] "#if X")
        none none none "#endif")
      = .error (.illegalNestedDirective "#else") ∧
    (∀ (g : CondGroup) (k : DirKind) (raw kw : String),
      walkKw raw = .ok kw → kw ∈ forbiddenKw →
      (Node.directive k raw ∈ g.entry.body ∨
        (∃ l b, g.elifs = some l ∧ b ∈ l ∧ Node.directive k raw ∈ b.body) ∨
        (∃ l, g.elseBody = some l ∧ Node.directive k raw ∈ l)) →
      validateGroup g ≠ .ok ()) := by
  refine ⟨rfl, ?_⟩
  intro g k raw kw hkw hf hmem hok
  obtain ⟨hwe, hwel, hwelse⟩ := validateGroup_ok_parts hok
  have herr := checkChild_forbidden (k := k) hkw hf
  rcases hmem with hm | ⟨l, b, hl, hbl, hm⟩ | ⟨l, hl, hm⟩
  · rw [checkChild_ok_of_walk_ok hwe hm] at herr
    cases herr
  · rw [checkChild_ok_of_walk_ok (walkElif_ok_of_mem (hwel l hl) hbl) hm]
      at herr
    cases herr
  · rw [checkChild_ok_of_walk_ok (hwelse l hl) hm] at herr
    cases herr

/-- C2 (counterexample): the walk's keyword extraction is not the
`_expect_directive` extraction — on `"#if(x)"` the walk takes the whole
whitespace-delimited token `"if(x)"` while `_expect_directive` takes the
identifier run `"if"`. -/
theorem claim2_extractions_differ_counterexample :
    kwByWalk "#if(x)" = some "if(x)" ∧ kwByExpect "#if(x)" = some "if" ∧
      kwByWalk "#if(x)" ≠ kwByExpect "#if(x)" := by
  exact ⟨rfl, rfl, by decide⟩

/-- C2 (amended): the walk extracts the first whitespace-delimited token
after dropping `#` and surrounding whitespace, not the longest
`[A-Za-z_][A-Za-z0-9_]*` run of `_expect_directive` (on `"#if(x)"` they
give `"if(x)"` and `"if"`); the two extractions agree whenever that first
token as a whole matches `[A-Za-z_][A-Za-z0-9_]*`. -/
theorem claim2_amended_walk_token_extraction :
    kwByWalk "#if(x)" = some "if(x)" ∧ kwByExpect "#if(x)" = some "if" ∧
    (∀ (raw : String) (s : List Char), afterHash raw = .ok s →
      isCIdentL (s.takeWhile (fun c => !(isPySpace c))) = true →
      kwByWalk raw = kwByExpect raw) := by
  refine ⟨rfl, rfl, ?_⟩
  intro raw s hs hid
  unfold kwByWalk kwByExpect
  rw [walkKw_of_afterHash hs, hs]
  show (some (⟨s.takeWhile (fun c => !(isPySpace c))⟩ : String) :
      Option String) = some ⟨identPrefixL s⟩
  rw [identPrefix_eq_token hid]

/-- C6: a `ConditionalGroup` whose entry has kind `elif` fails validation
whatever the other fields are, and a group that validates has an entry of
kind `if`, `ifdef` or `ifndef`. -/
theorem claim6_entry_kind_rule :
    (∀ g : CondGroup, g.entry.kind = .elifKw →
      validateGroup g = .error (.entryKind .elifKw)) ∧
    (∀ g : CondGroup, validateGroup g = .ok () →
      g.entry.kind = .ifKw ∨ g.entry.kind = .ifdefKw ∨
        g.entry.kind = .ifndefKw) := by
  constructor
  · intro g hk
    unfold validateGroup
    rw [hk, if_neg (by decide)]
  · intro g h
    unfold validateGroup at h
    split at h
    · assumption
    · cases h

/-- C7: `FileRoot` validation fails with the empty-path error whenever the
path strips to empty (even with `items = []`), fails with the null-item
error whenever any element of `items` is `None` (`path="a.h"`,
`items=[None]` concretely, and in general for every null-containing
items list under a non-empty path), and passes when the path is non-empty
after strip and no item is `None`. -/
theorem claim7_fileroot_validation :
    validateRoot "" [] = .error .emptyPath ∧
    validateRoot "a.h" [none] = .error (.nullItem 0) ∧
    (∀ (path : String) (items : List (Option Node)), pyStrip path = "" →
      validateRoot path items = .error .emptyPath) ∧
    (∀ (path : String) (items : List (Option Node)), pyStrip path ≠ "" →
      none ∈ items →
      ∃ i, validateRoot path items = .error (.nullItem i)) ∧
    (∀ (path : String) (items : List (Option Node)), pyStrip path ≠ "" →
      (∀ x ∈ items, x ≠ none) → validateRoot path items = .ok ()) := by
  refine ⟨rfl, rfl, ?_, ?_, ?_⟩
  · intro path items h
    unfold validateRoot
    rw [if_pos h]
  · intro path items hp hn
    obtain ⟨i, hi⟩ := checkItems_err hn 0
    refine ⟨i, ?_⟩
    unfold validateRoot
    rw [if_neg hp]
    exact hi
  · intro path items hp hi
    unfold validateRoot
    rw [if_neg hp]
    exact checkItems_ok hi 0

/-- C8: the walk's forbidden-keyword branch never fires on a
`DirectiveNode` that passed its own validation — one such child passes
`checkChild`, and a body whose directive children are all valid passes the
whole walk. -/
theorem claim8_forbidden_check_unreachable :
    (∀ (k : DirKind) (raw : String), validateDirective k raw = .ok () →
      checkChild (.directive k raw) = .ok ()) ∧
    (∀ ns : List Node,
      (∀ (k : DirKind) (raw : String), Node.directive k raw ∈ ns →
        validateDirective k raw = .ok ()) →
      walk ns = .ok ()) :=
  ⟨fun _ _ h => checkChild_ok_of_valid h, fun _ h => walk_ok_of_valid h⟩

/-- C10: group validation never reads `else_raw` or `endif_raw`: its result
is invariant under changing them, and an otherwise-valid group passes with
`else_raw` present while `else_body` is absent, with `else_body` present
while `else_raw` is absent, and with an `endif_raw` that is empty (no
`#endif` keyword at all). -/
theorem claim10_else_endif_never_validated :
    (∀ (entry : CondBranch) (elifs : Option (List CondBranch))
        (elseBody : Option (List Node)) (er er2 : Option String)
        (en en2 : String),
      validateGroup (.mk entry elifs elseBody er en) =
        validateGroup (.mk entry elifs elseBody er2 en2)) ∧
    validateGroup (.mk (.mk .ifKw "X" [] "#if X") none none (some "#else") "")
      = .ok () ∧
    validateGroup (.mk (.mk .ifKw "X" [] "#if X") none (some []) none "")
      = .ok () :=
  ⟨fun _ _ _ _ _ _ _ => rfl, rfl, rfl⟩

/-- C3: for a `FileRoot` whose items are only `TextBlock` and
`DirectiveNode` nodes (no `ConditionalGroup`), regenerating text
reproduces exactly the concatenation, in items order, of each text block's
`content` and each directive's `raw`. -/
theorem claim3_flat_roundtrip :
    ∀ r : FileRoot, (∀ n ∈ r.items, isFlat n = true) →
      tostringFile r = (r.items.map flatPiece).foldr (fun a b => a ++ b) ""
    := by
  have key : ∀ items : List Node, (∀ n ∈ items, isFlat n = true) →
      nodesToString items =
        (items.map flatPiece).foldr (fun a b => a ++ b) "" := by
    intro items
    induction items with
    | nil => intro _; rfl
    | cons n ns ih =>
      intro h2
      have hn : isFlat n = true := h2 n (List.mem_cons_self _ _)
      simp only [nodesToString, List.map_cons, List.foldr_cons]
      rw [ih fun m hm => h2 m (List.mem_cons_of_mem _ hm)]
      congr 1
      cases n with
      | text c => rfl
      | directive k raw => rfl
      | group g => cases hn
  intro r h
  exact key r.items h

/-- C3 witness: the round trip at a concrete flat file. -/
theorem claim3_flat_roundtrip_witness :
    tostringFile ⟨"a.h",
        [Node.text "A\n", Node.directive .includeKw "#include <x.h>\n",
          Node.text "B"]⟩
      = ([Node.text "A\n", Node.directive .includeKw "#include <x.h>\n",
          Node.text "B"].map flatPiece).foldr (fun a b => a ++ b) "" :=
  claim3_flat_roundtrip _ (by decide)

/-- C4: branch-condition legality depends on `kind` — for `ifdef`/`ifndef`
validation succeeds exactly when the raw checks pass and the stripped
condition matches the C-identifier grammar as a whole string (so
`condition="1BAD"` with `raw="#ifdef 1BAD"` fails with the
invalid-identifier error while `"FOO_BAR"` succeeds); for `if`/`elif` the
condition need only be non-empty after stripping. -/
theorem claim4_branch_condition_by_kind :
    validateBranch (.mk .ifdefKw "1BAD" [] "#ifdef 1BAD")
      = .error (.invalidIdentifier (condWhere .ifdefKw) "1BAD") ∧
    validateBranch (.mk .ifdefKw "FOO_BAR" [] "#ifdef FOO_BAR") = .ok () ∧
    (∀ b : CondBranch, b.kind = .ifdefKw ∨ b.kind = .ifndefKw →
      (validateBranch b = .ok () ↔
        pyStrip b.raw ≠ "" ∧ expectDirective b.raw b.kind.name = .ok () ∧
          isCIdentL (pyStripL b.condition.data) = true)) ∧
    (∀ b : CondBranch, b.kind = .ifKw ∨ b.kind = .elifKw →
      (validateBranch b = .ok () ↔
        pyStrip b.raw ≠ "" ∧ expectDirective b.raw b.kind.name = .ok () ∧
          pyStrip b.condition ≠ "")) := by
  refine ⟨rfl, rfl, ?_, ?_⟩
  · intro b hk
    obtain ⟨k, cond, body, raw⟩ := b
    simp only [CondBranch.kind] at hk
    rcases hk with hk | hk <;> subst hk <;>
    · simp only [validateBranch, CondBranch.kind, CondBranch.raw,
        CondBranch.condition]
      split <;> rename_i hraw
      · simp [hraw]
      · split <;> rename_i hexp
        · simp [hexp, hraw]
        · rename_i u
          cases u
          rw [requireIdentifier_ok_iff]
          simp [hexp, hraw]
  · intro b hk
    obtain ⟨k, cond, body, raw⟩ := b
    simp only [CondBranch.kind] at hk
    rcases hk with hk | hk <;> subst hk <;>
    · simp only [validateBranch, CondBranch.kind, CondBranch.raw,
        CondBranch.condition]
      split <;> rename_i hraw
      · simp [hraw]
      · split <;> rename_i hexp
        · simp [hexp, hraw]
        · rename_i u
          cases u
          rw [requireNonempty_ok_iff]
          simp [hexp, hraw]

/-- C5: keyword extraction ignores whitespace around `#` but is exact and
case-sensitive on the keyword itself — `"#   ifdef FOO"` and
`"#ifdef FOO"` both construct as `kind=ifdef` while `"#ifde FOO"` fails;
and any directive or branch that validates has an extracted keyword equal
to its declared kind's name. -/
theorem claim5_keyword_whitespace_insensitive_exact :
    validateBranch (.mk .ifdefKw "FOO" [] "#   ifdef FOO") = .ok () ∧
    validateBranch (.mk .ifdefKw "FOO" [] "#ifdef FOO") = .ok () ∧
    validateBranch (.mk .ifdefKw "FOO" [] "#ifde FOO")
      = .error (.kwMismatch "ifdef" "ifde" "#ifde FOO") ∧
    (∀ (k : DirKind) (raw : String), validateDirective k raw = .ok () →
      kwByExpect raw = some k.name) ∧
    (∀ b : CondBranch, validateBranch b = .ok () →
      kwByExpect b.raw = some b.kind.name) := by
  refine ⟨rfl, rfl, rfl, ?_, ?_⟩
  · intro k raw h
    unfold validateDirective at h
    split at h
    · cases h
    · rw [expectDirective_ok_iff] at h
      obtain ⟨s, hs, hkw⟩ := h
      unfold kwByExpect
      rw [hs]
      show some (⟨identPrefixL s⟩ : String) = some k.name
      rw [hkw]
  · intro b h
    unfold validateBranch at h
    split at h
    · cases h
    · split at h
      · cases h
      · rename_i u heq
        rw [expectDirective_ok_iff] at heq
        obtain ⟨s, hs, hkw⟩ := heq
        unfold kwByExpect
        rw [hs]
        show some (⟨identPrefixL s⟩ : String) = some b.kind.name
        rw [hkw]

/-- C9: branch validation never cross-checks `condition` against the
condition text inside `raw` — `kind=ifdef, condition="FOO",
raw="#ifdef BAR"` succeeds, and in general any branch whose raw keyword
matches its kind and whose condition satisfies the kind's rule validates,
whatever condition text `raw` names. -/
theorem claim9_raw_condition_not_crosschecked :
    validateBranch (.mk .ifdefKw "FOO" [] "#ifdef BAR") = .ok () ∧
    (∀ (cond : String) (body : List Node) (raw : String) (k : CondKind),
      k = .ifKw ∨ k = .elifKw → pyStrip raw ≠ "" →
      expectDirective raw k.name = .ok () → pyStrip cond ≠ "" →
      validateBranch (.mk k cond body raw) = .ok ()) ∧
    (∀ (cond : String) (body : List Node) (raw : String) (k : CondKind),
      k = .ifdefKw ∨ k = .ifndefKw → pyStrip raw ≠ "" →
      expectDirective raw k.name = .ok () →
      isCIdentL (pyStripL cond.data) = true →
      validateBranch (.mk k cond body raw) = .ok ()) := by
  refine ⟨rfl, ?_, ?_⟩
  · intro cond body raw k hk hraw hexp hcond
    rcases hk with hk | hk <;> subst hk <;>
    · simp only [validateBranch, CondBranch.kind, CondBranch.raw,
        CondBranch.condition]
      rw [if_neg hraw, hexp]
      exact (requireNonempty_ok_iff _ _).mpr hcond
  · intro cond body raw k hk hraw hexp hcond
    rcases hk with hk | hk <;> subst hk <;>
    · simp only [validateBranch, CondBranch.kind, CondBranch.raw,
        CondBranch.condition]
      rw [if_neg hraw, hexp]
      exact (requireIdentifier_ok_iff _ _).mpr hcond

end Cpptree
